import Mathlib

/-!
# Cache-decision engine of the time-card service worker (`sw.js`)

A shallow embedding of the `install`, `activate` and `fetch` handlers of `sw.js`.

The handlers are promise chains over two ambient objects of the host, the cache
storage (`caches`) and the network (`fetch`).  Both are made explicit here:

* the cache storage is an ordered association list from cache names to caches, a
  cache an ordered association list from request keys to responses.  A request key
  is the request URL (requests are `GET` requests and responses carry no `Vary`
  header), with `./` standing for the URL the worker resolves `./` to;
* the network is a function from URLs to the outcome of `fetch`;
* a `cache.put` that a handler starts without awaiting it is returned as a pending
  write, applied to the storage by `applyPuts`.
-/

namespace ServiceWorker

/-! ## Data model -/

/-- Response, with the parts the worker reads or builds: `status`, `type`, the
header list and the body. -/
structure Response where
  status : Nat
  type : String
  headers : List (String × String)
  body : String
deriving DecidableEq, Repr

/-- Request, with the parts the worker reads: the URL (its cache key) and
`request.destination`. -/
structure Request where
  url : String
  destination : String
deriving DecidableEq, Repr

/-- Outcome of `fetch(request)`: the promise rejects, or it resolves with a value
that the worker tests with `!response` before use. -/
inductive FetchOutcome where
  | rejected : FetchOutcome
  | resolved : Option Response → FetchOutcome
deriving DecidableEq, Repr

/-- Network: the outcome of fetching each URL. -/
abbrev Network := String → FetchOutcome

/-- One cache (a store generation): request keys with their stored responses, in
insertion order. -/
abbrev Cache := List (String × Response)

/-- The cache storage (`caches`): cache names with their caches, in creation order. -/
abbrev CacheStorage := List (String × Cache)

/-- Failures of the storage layer and of the client takeover, fixed per run. -/
structure StorageEnv where
  openFails : String → Bool
  keysFails : Bool
  deleteFails : String → Bool
  claimFails : Bool

/-- Outcome of a lifecycle handler: the storage it leaves and whether the promise
given to `event.waitUntil` fulfilled. -/
structure Completion where
  store : CacheStorage
  ok : Bool
deriving DecidableEq, Repr

/-- How the promise given to `event.respondWith` settles: fulfilled with a response,
fulfilled with `undefined` (`none`), or rejected. -/
inductive Settled where
  | fulfilled : Option Response → Settled
  | rejected : Settled
deriving DecidableEq, Repr

/-- Outcome of the fetch handler: how `respondWith` settles, the URLs fetched from
the network, and the `cache.put` calls started on the `CACHE_NAME` cache and not
awaited (key and response). -/
structure HandlerResult where
  settled : Settled
  fetched : List String
  puts : List (String × Response)
deriving DecidableEq, Repr

/-! ## Constants of `sw.js` -/

/-- Line 1: `const CACHE_NAME = 'timecard-v1'`. -/
def CACHE_NAME : String := "timecard-v1"

/-- Lines 2-9: `const urlsToCache = [...]`. -/
def urlsToCache : List String :=
  ["./", "./index.html", "./manifest.json", "./logo.png", "./icon-192.png", "./icon-512.png"]

/-- Lines 125-131: the template literal `fallbackSvg`. -/
def fallbackSvg : String :=
  "\n                <svg width=\"192\" height=\"192\" xmlns=\"http://www.w3.org/2000/svg\">\n                  <rect width=\"192\" height=\"192\" fill=\"#3b82f6\"/>\n                  <text x=\"96\" y=\"110\" font-family=\"Arial, sans-serif\" font-size=\"48\" \n                        fill=\"white\" text-anchor=\"middle\" font-weight=\"bold\">勤</text>\n                </svg>\n              "

/-- Lines 132-137: `new Response(fallbackSvg, { headers: ... })`; a response built
this way has status 200 and type `default`. -/
def fallbackResponse : Response :=
  { status := 200
    type := "default"
    headers := [("Content-Type", "image/svg+xml"), ("Cache-Control", "no-cache")]
    body := fallbackSvg }

/-! ## The cache storage of the host -/

/-- The call `cache.match(key)`: the first entry stored under `key`. -/
def cacheMatch (key : String) : Cache → Option Response
  | [] => none
  | (k, r) :: rest => if k = key then some r else cacheMatch key rest

/-- The call `caches.match(key)`: the caches are searched in creation order and the
first hit is the answer. -/
def cachesMatch (key : String) : CacheStorage → Option Response
  | [] => none
  | (_, c) :: rest =>
    match cacheMatch key c with
    | some r => some r
    | none => cachesMatch key rest

/-- The call `cache.put(key, response)`: entries under `key` are removed and the new
entry is appended. -/
def cachePut (key : String) (r : Response) (c : Cache) : Cache :=
  c.filter (fun e => e.1 ≠ key) ++ [(key, r)]

/-- The call `caches.keys()`. -/
def cachesKeys (s : CacheStorage) : List String :=
  s.map Prod.fst

/-- The call `caches.open(name)`, on success: the cache is created empty when no
cache has that name. -/
def cachesOpen (name : String) (s : CacheStorage) : CacheStorage :=
  if name ∈ cachesKeys s then s else s ++ [(name, [])]

/-- The call `caches.delete(name)`, on success. -/
def cachesDelete (name : String) (s : CacheStorage) : CacheStorage :=
  s.filter (fun g => g.1 ≠ name)

/-- The cache named `name`, as `caches.open(name)` hands it out (empty when absent). -/
def cachesGet (name : String) : CacheStorage → Cache
  | [] => []
  | (n, c) :: rest => if n = name then c else cachesGet name rest

/-- Writes through a handle obtained from `caches.open(name)`. -/
def cachesUpdate (name : String) (f : Cache → Cache) : CacheStorage → CacheStorage
  | [] => []
  | (n, c) :: rest =>
    if n = name then (n, f c) :: cachesUpdate name f rest
    else (n, c) :: cachesUpdate name f rest

/-- What `cache.add`/`cache.addAll` accept from the network: a response with an ok
status (200-299) other than 206; a rejected fetch or any other response makes them
reject. -/
def addable : FetchOutcome → Option Response
  | .resolved (some r) =>
    if 200 ≤ r.status ∧ r.status ≤ 299 ∧ r.status ≠ 206 then some r else none
  | _ => none

/-- The fetches of `cache.addAll(urls)`: every response, or `none` as soon as one
request is not accepted. -/
def fetchAll (net : Network) : List String → Option (List (String × Response))
  | [] => some []
  | u :: us =>
    match addable (net u), fetchAll net us with
    | some r, some rs => some ((u, r) :: rs)
    | _, _ => none

/-- The call `cache.addAll(urls)`: all requests are fetched and, when every one is
accepted and no two requests coincide, stored in one batch; otherwise the promise
rejects (`none`) and nothing is written. -/
def cacheAddAll (net : Network) (urls : List String) (c : Cache) : Option Cache :=
  if urls.Nodup then
    (fetchAll net urls).map (fun rs => rs.foldl (fun acc e => cachePut e.1 e.2 acc) c)
  else none

/-- The call `cache.add(url)`, which is `cache.addAll([url])`. -/
def cacheAdd (net : Network) (url : String) (c : Cache) : Option Cache :=
  cacheAddAll net [url] c

/-! ## The `install` handler (lines 12-39) -/

/-- Lines 26-30: `cache.add(url).catch(...)`, a rejection being logged and ignored. -/
def addOrSkip (net : Network) (c : Cache) (url : String) : Cache :=
  (cacheAdd net url c).getD c

/-- Lines 16-33 on an opened cache: `cache.addAll` of the whole manifest and, when
that rejects, one `cache.add` per URL with its own `.catch`.  The single adds are
taken to land in manifest order. -/
def precache (manifest : List String) (net : Network) (c : Cache) : Cache :=
  match cacheAddAll net manifest c with
  | some c1 => c1
  | none => manifest.foldl (addOrSkip net) c

/-- The install handler for a given manifest.  When `caches.open(CACHE_NAME)`
rejects, the `.catch` handler opens the cache again, that rejects too and the
install fails. -/
def installWith (manifest : List String) (env : StorageEnv) (net : Network)
    (s : CacheStorage) : Completion :=
  if env.openFails CACHE_NAME then
    { store := s, ok := false }
  else
    { store := cachesUpdate CACHE_NAME (precache manifest net) (cachesOpen CACHE_NAME s)
      ok := true }

/-- The install handler of `sw.js`, on its manifest `urlsToCache`. -/
def installHandler (env : StorageEnv) (net : Network) (s : CacheStorage) : Completion :=
  installWith urlsToCache env net s

/-! ## The `activate` handler (lines 42-60) -/

/-- The activate handler: every cache whose name differs from `CACHE_NAME` is
deleted; `Promise.all` rejects when one deletion does, the other deletions having
been started all the same; `clients.claim()` follows the deletions. -/
def activateHandler (env : StorageEnv) (s : CacheStorage) : Completion :=
  if env.keysFails then
    { store := s, ok := false }
  else
    let stale := (cachesKeys s).filter (fun cacheName => cacheName ≠ CACHE_NAME)
    let s1 := stale.foldl
      (fun acc cacheName => if env.deleteFails cacheName then acc else cachesDelete cacheName acc) s
    if stale.any env.deleteFails then
      { store := s1, ok := false }
    else
      { store := s1, ok := !env.claimFails }

/-! ## The `fetch` handler (lines 63-145) -/

/-- The fetch handler.  `s` is the storage when the request is intercepted, `late`
the storage when the network fetch of a document has failed and `./` is looked up
again (other tasks may have written in between). -/
def fetchHandler (s : CacheStorage) (net : Network) (late : CacheStorage)
    (request : Request) : HandlerResult :=
  if request.destination = "document" then
    match cachesMatch "./" s with
    | some response => { settled := .fulfilled (some response), fetched := [], puts := [] }
    | none =>
      match net request.url with
      | .resolved (some response) =>
        if response.status = 200 then
          { settled := .fulfilled (some response), fetched := [request.url]
            puts := [(request.url, response)] }
        else
          { settled := .fulfilled (some response), fetched := [request.url], puts := [] }
      | _ =>
        { settled := .fulfilled (cachesMatch "./" late), fetched := [request.url], puts := [] }
  else
    match cachesMatch request.url s with
    | some response => { settled := .fulfilled (some response), fetched := [], puts := [] }
    | none =>
      match net request.url with
      | .resolved none => { settled := .fulfilled none, fetched := [request.url], puts := [] }
      | .resolved (some response) =>
        if response.status ≠ 200 ∨ response.type ≠ "basic" then
          { settled := .fulfilled (some response), fetched := [request.url], puts := [] }
        else
          { settled := .fulfilled (some response), fetched := [request.url]
            puts := [(request.url, response)] }
      | .rejected =>
        if request.destination = "image" then
          { settled := .fulfilled (some fallbackResponse), fetched := [request.url], puts := [] }
        else
          { settled := .rejected, fetched := [request.url], puts := [] }

/-- The pending writes of a handler once they have landed: each is
`caches.open(CACHE_NAME).then(cache => cache.put(key, response))`. -/
def applyPuts (puts : List (String × Response)) (s : CacheStorage) : CacheStorage :=
  puts.foldl (fun acc p => cachesUpdate CACHE_NAME (cachePut p.1 p.2) (cachesOpen CACHE_NAME acc)) s

/-- The caller of an intercepted request gets no response: the promise rejected or
it fulfilled with `undefined`. -/
def failsCaller : Settled → Bool
  | .fulfilled (some _) => false
  | _ => true

/-- Value of the header `name` of a response. -/
def header (name : String) (r : Response) : Option String :=
  r.headers.lookup name

/-! ## Sample inputs -/

/-- A storage layer and client takeover without failures. -/
def quietEnv : StorageEnv :=
  { openFails := fun _ => false, keysFails := false, deleteFails := fun _ => false
    claimFails := false }

/-- A same-origin page with status 200. -/
def htmlA : Response :=
  { status := 200, type := "basic", headers := [], body := "<html>A</html>" }

/-- Another same-origin page with status 200. -/
def htmlB : Response :=
  { status := 200, type := "basic", headers := [], body := "<html>B</html>" }

/-- A same-origin `404` response. -/
def notFound : Response :=
  { status := 404, type := "basic", headers := [], body := "Not Found" }

/-- A stale logo, as an earlier generation may hold it. -/
def logoOld : Response :=
  { status := 200, type := "basic", headers := [("Content-Type", "image/png")], body := "old" }

/-- A storage with a superseded generation in front of the current one. -/
def twoGenerations : CacheStorage :=
  [("timecard-v0", [("./", htmlA), ("./logo.png", logoOld)]), (CACHE_NAME, [("./", htmlB)])]

/-- A network on which the root answers with `htmlA` and nothing else is reachable. -/
def rootOnly : Network := fun url => if url = "./" then .resolved (some htmlA) else .rejected

/-- A network on which everything is unreachable. -/
def offline : Network := fun _ => .rejected

/-- A network that answers every URL with the same response. -/
def always (r : Response) : Network := fun _ => .resolved (some r)

/-! ## Lemmas on the cache storage -/

theorem cacheMatch_append (key : String) (c d : Cache) :
    cacheMatch key (c ++ d) = (cacheMatch key c).orElse (fun _ => cacheMatch key d) := by
  induction c with
  | nil => simp [cacheMatch]
  | cons e rest ih =>
    obtain ⟨k, r⟩ := e
    by_cases h : k = key
    · simp [cacheMatch, h]
    · simp [cacheMatch, h, ih]

theorem cacheMatch_filter_ne (key : String) (c : Cache) :
    cacheMatch key (c.filter (fun e => e.1 ≠ key)) = none := by
  induction c with
  | nil => simp [cacheMatch]
  | cons e rest ih =>
    obtain ⟨k, r⟩ := e
    by_cases h : k = key
    · rw [List.filter_cons_of_neg (by simpa using h)]
      exact ih
    · rw [List.filter_cons_of_pos (by simpa using h)]
      simpa [cacheMatch, h] using ih

theorem cacheMatch_filter_other (key k2 : String) (c : Cache) (h : k2 ≠ key) :
    cacheMatch key (c.filter (fun e => e.1 ≠ k2)) = cacheMatch key c := by
  induction c with
  | nil => simp [cacheMatch]
  | cons e rest ih =>
    obtain ⟨k, r⟩ := e
    by_cases hk : k = k2
    · rw [List.filter_cons_of_neg (by simpa using hk), ih]
      have hkey : ¬ k = key := fun e => h (hk.symm.trans e)
      simp [cacheMatch, hkey]
    · rw [List.filter_cons_of_pos (by simpa using hk)]
      by_cases hkey : k = key
      · simp [cacheMatch, hkey]
      · simp only [cacheMatch, hkey, if_false]
        exact ih

theorem cacheMatch_cachePut (key k2 : String) (r : Response) (c : Cache) :
    cacheMatch key (cachePut k2 r c) = if k2 = key then some r else cacheMatch key c := by
  unfold cachePut
  rw [cacheMatch_append]
  by_cases h : k2 = key
  · subst h
    rw [cacheMatch_filter_ne]
    simp [cacheMatch]
  · rw [cacheMatch_filter_other key k2 c h]
    cases hc : cacheMatch key c <;> simp [cacheMatch, h]

theorem cachesMatch_append (key : String) (s t : CacheStorage) :
    cachesMatch key (s ++ t) = (cachesMatch key s).orElse (fun _ => cachesMatch key t) := by
  induction s with
  | nil => simp [cachesMatch]
  | cons g rest ih =>
    obtain ⟨n, c⟩ := g
    cases hc : cacheMatch key c <;> simp [cachesMatch, hc, ih]

theorem mem_cachesKeys_cachesOpen (name : String) (s : CacheStorage) :
    name ∈ cachesKeys (cachesOpen name s) := by
  unfold cachesOpen
  split
  · assumption
  · simp [cachesKeys]

theorem cachesMatch_cachesOpen (key name : String) (s : CacheStorage) :
    cachesMatch key (cachesOpen name s) = cachesMatch key s := by
  unfold cachesOpen
  split
  · rfl
  · rw [cachesMatch_append]
    cases h : cachesMatch key s <;> simp [cachesMatch, cacheMatch]

theorem cachesGet_cachesOpen (name : String) (s : CacheStorage) :
    cachesGet name (cachesOpen name s) = cachesGet name s := by
  unfold cachesOpen
  split
  · rfl
  · rename_i h
    induction s with
    | nil => simp [cachesGet]
    | cons g rest ih =>
      obtain ⟨n, c⟩ := g
      simp only [cachesKeys, List.map_cons, List.mem_cons, not_or] at h
      have hn : ¬ n = name := fun e => h.1 e.symm
      simp only [List.cons_append, cachesGet, hn, if_false]
      exact ih h.2

theorem cachesGet_cachesUpdate (name : String) (f : Cache → Cache) (s : CacheStorage)
    (h : name ∈ cachesKeys s) :
    cachesGet name (cachesUpdate name f s) = f (cachesGet name s) := by
  induction s with
  | nil => simp [cachesKeys] at h
  | cons g rest ih =>
    obtain ⟨n, c⟩ := g
    by_cases hn : n = name
    · simp [cachesUpdate, cachesGet, hn]
    · simp only [cachesKeys, List.map_cons, List.mem_cons] at h
      have hrest : name ∈ cachesKeys rest := by
        rcases h with h | h
        · exact absurd h.symm hn
        · exact h
      simp only [cachesUpdate, cachesGet, hn, if_false]
      exact ih hrest

theorem cachesGet_write (name : String) (f : Cache → Cache) (s : CacheStorage) :
    cachesGet name (cachesUpdate name f (cachesOpen name s)) = f (cachesGet name s) := by
  rw [cachesGet_cachesUpdate name f _ (mem_cachesKeys_cachesOpen name s), cachesGet_cachesOpen]

theorem cachesMatch_cachesUpdate_put (key name : String) (r : Response) (s : CacheStorage)
    (hmem : name ∈ cachesKeys s) (hmiss : cachesMatch key s = none) :
    cachesMatch key (cachesUpdate name (cachePut key r) s) = some r := by
  induction s with
  | nil => simp [cachesKeys] at hmem
  | cons g rest ih =>
    obtain ⟨n, c⟩ := g
    have hc : cacheMatch key c = none := by
      cases h : cacheMatch key c with
      | none => rfl
      | some x => simp [cachesMatch, h] at hmiss
    have hrest : cachesMatch key rest = none := by simpa [cachesMatch, hc] using hmiss
    by_cases hn : n = name
    · simp [cachesUpdate, cachesMatch, hn, cacheMatch_cachePut]
    · simp only [cachesKeys, List.map_cons, List.mem_cons] at hmem
      have hmem2 : name ∈ cachesKeys rest := by
        rcases hmem with h | h
        · exact absurd h.symm hn
        · exact h
      simp only [cachesUpdate, cachesMatch, hn, if_false, hc]
      exact ih hmem2 hrest

theorem cachesMatch_eq_none_of_forall (key : String) (s : CacheStorage)
    (h : ∀ g ∈ s, cacheMatch key g.2 = none) : cachesMatch key s = none := by
  induction s with
  | nil => rfl
  | cons g rest ih =>
    obtain ⟨n, c⟩ := g
    have hc : cacheMatch key c = none := h (n, c) (List.mem_cons_self _ _)
    simp only [cachesMatch, hc]
    exact ih (fun g hg => h g (List.mem_cons_of_mem _ hg))

theorem cachesMatch_eq_head_filterMap (key : String) (s : CacheStorage) :
    cachesMatch key s = (s.filterMap (fun g => cacheMatch key g.2)).head? := by
  induction s with
  | nil => rfl
  | cons g rest ih =>
    obtain ⟨n, c⟩ := g
    cases hc : cacheMatch key c with
    | none => simp [cachesMatch, hc, List.filterMap_cons, ih]
    | some r => simp [cachesMatch, hc, List.filterMap_cons]

theorem cachesMatch_eq_current (key : String) (s : CacheStorage)
    (hothers : ∀ g ∈ s, g.1 ≠ CACHE_NAME → cacheMatch key g.2 = none)
    (hnodup : (cachesKeys s).Nodup) :
    cachesMatch key s = cacheMatch key (cachesGet CACHE_NAME s) := by
  induction s with
  | nil => rfl
  | cons g rest ih =>
    obtain ⟨n, c⟩ := g
    simp only [cachesKeys, List.map_cons, List.nodup_cons] at hnodup
    by_cases hn : n = CACHE_NAME
    · have hrest : cachesMatch key rest = none := by
        apply cachesMatch_eq_none_of_forall
        intro g hg
        apply hothers g (List.mem_cons_of_mem _ hg)
        intro hg1
        apply hnodup.1
        rw [hn, ← hg1]
        exact List.mem_map_of_mem Prod.fst hg
      cases hc : cacheMatch key c <;> simp [cachesMatch, cachesGet, hn, hc, hrest]
    · have hc : cacheMatch key c = none := hothers (n, c) (List.mem_cons_self _ _) hn
      simp only [cachesMatch, cachesGet, hn, if_false, hc]
      exact ih (fun g hg => hothers g (List.mem_cons_of_mem _ hg)) hnodup.2

/-! ## Lemmas on precaching -/

theorem addOrSkip_eq (net : Network) (c : Cache) (url : String) :
    addOrSkip net c url
      = match addable (net url) with
        | some r => cachePut url r c
        | none => c := by
  unfold addOrSkip cacheAdd cacheAddAll
  cases h : addable (net url) <;> simp [fetchAll, h]

theorem fetchAll_foldl (net : Network) (urls : List String) :
    ∀ (rs : List (String × Response)) (c : Cache), fetchAll net urls = some rs →
      rs.foldl (fun acc e => cachePut e.1 e.2 acc) c = urls.foldl (addOrSkip net) c := by
  induction urls with
  | nil =>
    intro rs c h
    simp only [fetchAll, Option.some.injEq] at h
    subst h
    rfl
  | cons u us ih =>
    intro rs c h
    cases ha : addable (net u) with
    | none => simp [fetchAll, ha] at h
    | some r =>
      cases hf : fetchAll net us with
      | none => simp [fetchAll, ha, hf] at h
      | some rs2 =>
        simp only [fetchAll, ha, hf, Option.some.injEq] at h
        subst h
        simp only [List.foldl_cons]
        rw [ih rs2 (cachePut u r c) hf, addOrSkip_eq, ha]

theorem precache_eq_foldl (manifest : List String) (net : Network) (c : Cache) :
    precache manifest net c = manifest.foldl (addOrSkip net) c := by
  unfold precache
  cases h : cacheAddAll net manifest c with
  | none => rfl
  | some c1 =>
    unfold cacheAddAll at h
    split at h
    · cases hf : fetchAll net manifest with
      | none => simp [hf] at h
      | some rs =>
        simp only [hf, Option.map_some', Option.some.injEq] at h
        simp only
        rw [← h]
        exact fetchAll_foldl net manifest rs c hf
    · simp at h

theorem cacheMatch_foldl_addOrSkip (net : Network) (k : String) (urls : List String) :
    ∀ c : Cache, cacheMatch k (urls.foldl (addOrSkip net) c)
      = if k ∈ urls then (addable (net k)).orElse (fun _ => cacheMatch k c)
        else cacheMatch k c := by
  induction urls with
  | nil => intro c; simp
  | cons u us ih =>
    intro c
    simp only [List.foldl_cons]
    rw [ih (addOrSkip net c u), addOrSkip_eq]
    by_cases hku : k = u
    · subst hku
      cases ha : addable (net k) with
      | none => simp
      | some r =>
        by_cases hmem : k ∈ us <;> simp [hmem, cacheMatch_cachePut]
    · have huk : ¬ u = k := fun e => hku e.symm
      have hput : cacheMatch k (match addable (net u) with
          | some r => cachePut u r c
          | none => c) = cacheMatch k c := by
        cases addable (net u) with
        | none => rfl
        | some r => simp [cacheMatch_cachePut, huk]
      rw [hput]
      simp [hku]

theorem mem_keys_iff_cacheMatch (k : String) (c : Cache) :
    k ∈ c.map Prod.fst ↔ (cacheMatch k c).isSome = true := by
  induction c with
  | nil => simp [cacheMatch]
  | cons e rest ih =>
    obtain ⟨k2, r⟩ := e
    by_cases h : k2 = k
    · simp [cacheMatch, h]
    · have h2 : ¬ k = k2 := fun e => h e.symm
      simp [cacheMatch, h, h2, ih]

theorem cachesKeys_cachesUpdate (name : String) (f : Cache → Cache) (s : CacheStorage) :
    cachesKeys (cachesUpdate name f s) = cachesKeys s := by
  induction s with
  | nil => rfl
  | cons g rest ih =>
    obtain ⟨n, c⟩ := g
    simp only [cachesKeys] at ih
    by_cases hn : n = name <;> simp [cachesUpdate, cachesKeys, hn, ih]

theorem cachesUpdate_idem (name : String) (f : Cache → Cache) (hf : ∀ c, f (f c) = f c)
    (s : CacheStorage) :
    cachesUpdate name f (cachesUpdate name f s) = cachesUpdate name f s := by
  induction s with
  | nil => rfl
  | cons g rest ih =>
    obtain ⟨n, c⟩ := g
    by_cases hn : n = name <;> simp [cachesUpdate, hn, ih, hf]

theorem countP_key_cachePut (k u : String) (r : Response) (c : Cache) :
    (cachePut u r c).countP (fun e => e.1 = k)
      = if u = k then 1 else c.countP (fun e => e.1 = k) := by
  unfold cachePut
  rw [List.countP_append, List.countP_filter]
  by_cases h : u = k
  · subst h
    have h0 : c.countP (fun e => decide (e.1 = u) && decide (e.1 ≠ u)) = 0 := by
      rw [List.countP_eq_zero]
      intro e _
      by_cases he : e.1 = u <;> simp [he]
    rw [h0]
    simp [List.countP_cons]
  · have hc : c.countP (fun e => decide (e.1 = k) && decide (e.1 ≠ u))
        = c.countP (fun e => decide (e.1 = k)) := by
      apply List.countP_congr
      intro e _
      by_cases he : e.1 = k
      · have hne : ¬ k = u := fun e2 => h e2.symm
        simp [he, hne]
      · simp [he]
    rw [hc]
    simp [List.countP_cons, h]

theorem countP_key_foldl_addOrSkip (net : Network) (k : String) (urls : List String) :
    ∀ c : Cache, (urls.foldl (addOrSkip net) c).countP (fun e => e.1 = k)
      = if k ∈ urls ∧ (addable (net k)).isSome = true then 1
        else c.countP (fun e => e.1 = k) := by
  induction urls with
  | nil => intro c; simp
  | cons u us ih =>
    intro c
    simp only [List.foldl_cons]
    rw [ih (addOrSkip net c u), addOrSkip_eq]
    by_cases hku : u = k
    · subst hku
      cases ha : addable (net u) with
      | none => simp
      | some r => simp [countP_key_cachePut]
    · have hku2 : ¬ k = u := fun e => hku e.symm
      have hput : List.countP (fun e : String × Response => decide (e.1 = k))
          (match addable (net u) with
          | some r => cachePut u r c
          | none => c) = c.countP (fun e => e.1 = k) := by
        cases addable (net u) with
        | none => rfl
        | some r => simp [countP_key_cachePut, hku]
      rw [hput]
      simp [hku2]

theorem foldl_addOrSkip_split (net : Network) (urls : List String) :
    ∀ c : Cache, urls.foldl (addOrSkip net) c
      = c.filter (fun e => !(decide (e.1 ∈ urls) && (addable (net e.1)).isSome))
        ++ urls.foldl (addOrSkip net) [] := by
  induction urls with
  | nil => intro c; simp
  | cons u us ih =>
    intro c
    simp only [List.foldl_cons]
    rw [ih (addOrSkip net c u), ih (addOrSkip net [] u), addOrSkip_eq, addOrSkip_eq]
    cases ha : addable (net u) with
    | none =>
      simp only [List.filter_nil, List.nil_append, List.append_cancel_right_eq]
      apply List.filter_congr
      intro e _
      by_cases heu : e.1 = u
      · simp [heu, ha]
      · simp [heu]
    | some r =>
      simp only [cachePut, List.filter_append, List.filter_nil, List.nil_append,
        List.append_assoc, List.filter_filter]
      congr 1
      apply List.filter_congr
      intro e _
      by_cases heu : e.1 = u
      · simp [heu, ha]
      · simp [heu]

theorem foldl_addOrSkip_idem (net : Network) (urls : List String) (c : Cache) :
    urls.foldl (addOrSkip net) (urls.foldl (addOrSkip net) c)
      = urls.foldl (addOrSkip net) c := by
  rw [foldl_addOrSkip_split net urls (urls.foldl (addOrSkip net) c)]
  conv_rhs => rw [foldl_addOrSkip_split net urls c]
  conv_lhs => rw [foldl_addOrSkip_split net urls c]
  rw [List.filter_append, List.filter_filter]
  have hnil : (urls.foldl (addOrSkip net) []).filter
      (fun e => !(decide (e.1 ∈ urls) && (addable (net e.1)).isSome)) = [] := by
    rw [List.filter_eq_nil_iff]
    intro e he
    have hk : e.1 ∈ (urls.foldl (addOrSkip net) []).map Prod.fst :=
      List.mem_map_of_mem Prod.fst he
    rw [mem_keys_iff_cacheMatch, cacheMatch_foldl_addOrSkip] at hk
    by_cases hmem : e.1 ∈ urls
    · cases ha : addable (net e.1) with
      | none => simp [hmem, ha, cacheMatch] at hk
      | some r => simp [hmem]
    · simp [hmem, cacheMatch] at hk
  rw [hnil, List.append_nil]
  congr 1
  apply List.filter_congr
  intro e _
  cases (decide (e.1 ∈ urls) && (addable (net e.1)).isSome) <;> rfl

theorem foldl_delete_eq_filter (env : StorageEnv) (names : List String)
    (hdel : ∀ n ∈ names, env.deleteFails n = false) :
    ∀ s : CacheStorage,
      names.foldl (fun acc cacheName =>
          if env.deleteFails cacheName then acc else cachesDelete cacheName acc) s
        = s.filter (fun g => !decide (g.1 ∈ names)) := by
  induction names with
  | nil => intro s; simp
  | cons n rest ih =>
    intro s
    have hn : env.deleteFails n = false := hdel n (List.mem_cons_self _ _)
    simp only [List.foldl_cons, hn, Bool.false_eq_true, if_false]
    rw [ih (fun m hm => hdel m (List.mem_cons_of_mem _ hm)) (cachesDelete n s)]
    simp only [cachesDelete, List.filter_filter]
    apply List.filter_congr
    intro g _
    by_cases hg : g.1 = n
    · simp [hg]
    · simp [hg]

theorem filter_eq_singleton_of_nodup (a : String) (l : List String) (hmem : a ∈ l)
    (hnodup : l.Nodup) : l.filter (fun t => t = a) = [a] := by
  induction l with
  | nil => simp at hmem
  | cons b rest ih =>
    simp only [List.nodup_cons] at hnodup
    by_cases hb : b = a
    · subst hb
      have hnone : rest.filter (fun t => decide (t = b)) = [] := by
        rw [List.filter_eq_nil_iff]
        intro t ht
        have : ¬ t = b := fun e => hnodup.1 (e ▸ ht)
        simpa using this
      rw [List.filter_cons_of_pos (by simp), hnone]
    · rw [List.filter_cons_of_neg (by simpa using hb)]
      simp only [List.mem_cons] at hmem
      rcases hmem with h | h
      · exact absurd h.symm hb
      · exact ih h hnodup.2

/-! ## The placeholder image -/

set_option maxRecDepth 20000 in
theorem fallbackSvg_markup :
    fallbackSvg
      = "\n                "
        ++ "<svg width=\"192\" height=\"192\" xmlns=\"http://www.w3.org/2000/svg\">"
        ++ "\n                  "
        ++ "<rect width=\"192\" height=\"192\" fill=\"#3b82f6\"/>"
        ++ "\n                  "
        ++ "<text x=\"96\" y=\"110\" font-family=\"Arial, sans-serif\" font-size=\"48\" \n                        fill=\"white\" text-anchor=\"middle\" font-weight=\"bold\">"
        ++ "勤"
        ++ "</text>"
        ++ "\n                "
        ++ "</svg>"
        ++ "\n              " := by
  decide

set_option maxRecDepth 20000 in
theorem fallbackSvg_length : fallbackSvg.length = 359 := by
  decide

/-! ## The fetch handler -/

/-- C1. When `caches.match('./')` finds a response `R`, a request with destination
`document` is answered with exactly `R`, whatever its URL and whatever the network
holds: nothing is fetched and no write is started. -/
theorem document_cache_first (s late : CacheStorage) (net : Network) (request : Request)
    (R : Response) (hdoc : request.destination = "document")
    (hR : cachesMatch "./" s = some R) :
    fetchHandler s net late request
      = { settled := .fulfilled (some R), fetched := [], puts := [] } := by
  simp [fetchHandler, hdoc, hR]

theorem document_cache_first_witness :
    (Request.mk "./settings" "document").destination = "document"
    ∧ cachesMatch "./" [(CACHE_NAME, [("./", htmlA)])] = some htmlA
    ∧ fetchHandler [(CACHE_NAME, [("./", htmlA)])] (always htmlB) [] ⟨"./settings", "document"⟩
      = { settled := .fulfilled (some htmlA), fetched := [], puts := [] } :=
  ⟨rfl, by decide,
    document_cache_first [(CACHE_NAME, [("./", htmlA)])] [] (always htmlB)
      ⟨"./settings", "document"⟩ htmlA rfl (by decide)⟩

/-- C5. A request that is not a document request and whose key misses: when the
fetch resolves with a missing response, or with a response whose status is not 200 or
whose type is not `basic`, the handler hands that value back as it is and starts no
`cache.put`, so every storage is left as it was. -/
theorem asset_invalid_response_not_cached (s late : CacheStorage) (net : Network)
    (request : Request) (resp : Option Response)
    (hdest : request.destination ≠ "document")
    (hmiss : cachesMatch request.url s = none)
    (hnet : net request.url = .resolved resp)
    (hbad : ∀ r, resp = some r → r.status ≠ 200 ∨ r.type ≠ "basic") :
    (fetchHandler s net late request).settled = .fulfilled resp
    ∧ (fetchHandler s net late request).puts = []
    ∧ ∀ t, applyPuts (fetchHandler s net late request).puts t = t := by
  have key : (fetchHandler s net late request).settled = .fulfilled resp
      ∧ (fetchHandler s net late request).puts = [] := by
    cases resp with
    | none => simp [fetchHandler, hdest, hmiss, hnet]
    | some r =>
      have hr := hbad r rfl
      simp only [fetchHandler, hdest, hmiss, hnet, if_false]
      rw [if_pos hr]
      exact ⟨rfl, rfl⟩
  refine ⟨key.1, key.2, fun t => ?_⟩
  rw [key.2]
  rfl

theorem asset_invalid_response_not_cached_witness :
    (Request.mk "./style.css" "style").destination ≠ "document"
    ∧ (fetchHandler [(CACHE_NAME, [("./", htmlA)])] (always notFound) []
        ⟨"./style.css", "style"⟩).settled = .fulfilled (some notFound)
    ∧ (fetchHandler [(CACHE_NAME, [("./", htmlA)])] (always notFound) []
        ⟨"./style.css", "style"⟩).puts = []
    ∧ ∀ t, applyPuts (fetchHandler [(CACHE_NAME, [("./", htmlA)])] (always notFound) []
        ⟨"./style.css", "style"⟩).puts t = t :=
  ⟨by decide,
    asset_invalid_response_not_cached [(CACHE_NAME, [("./", htmlA)])] [] (always notFound)
      ⟨"./style.css", "style"⟩ (some notFound) (by decide) (by decide) rfl
      (fun r hr => by
        have h : notFound = r := Option.some.inj hr
        subst h
        exact Or.inl (by decide))⟩

/-- C8. A request with destination `image` whose key misses and whose fetch rejects
is answered, not failed: with the one response `fallbackResponse`, the same for every
such request, whose `Content-Type` is `image/svg+xml`, whose `Cache-Control` is
`no-cache` and whose body is the fixed SVG text of lines 125-131, character for
character: 359 characters, made of an `svg` element of 192 by 192 that holds a `rect`
filled with `#3b82f6` and a `text` element with the glyph `勤`; no `cache.put` is
started, so every storage is left as it was. -/
theorem image_fallback (s late : CacheStorage) (net : Network) (request : Request)
    (himg : request.destination = "image")
    (hmiss : cachesMatch request.url s = none)
    (hfail : net request.url = .rejected) :
    (fetchHandler s net late request).settled = .fulfilled (some fallbackResponse)
    ∧ failsCaller (fetchHandler s net late request).settled = false
    ∧ header "Content-Type" fallbackResponse = some "image/svg+xml"
    ∧ header "Cache-Control" fallbackResponse = some "no-cache"
    ∧ fallbackResponse.body = fallbackSvg
    ∧ fallbackSvg ≠ ""
    ∧ fallbackResponse.body
        = "\n                <svg width=\"192\" height=\"192\" xmlns=\"http://www.w3.org/2000/svg\">\n                  <rect width=\"192\" height=\"192\" fill=\"#3b82f6\"/>\n                  <text x=\"96\" y=\"110\" font-family=\"Arial, sans-serif\" font-size=\"48\" \n                        fill=\"white\" text-anchor=\"middle\" font-weight=\"bold\">勤</text>\n                </svg>\n              "
    ∧ fallbackResponse.body
        = "\n                "
          ++ "<svg width=\"192\" height=\"192\" xmlns=\"http://www.w3.org/2000/svg\">"
          ++ "\n                  "
          ++ "<rect width=\"192\" height=\"192\" fill=\"#3b82f6\"/>"
          ++ "\n                  "
          ++ "<text x=\"96\" y=\"110\" font-family=\"Arial, sans-serif\" font-size=\"48\" \n                        fill=\"white\" text-anchor=\"middle\" font-weight=\"bold\">"
          ++ "勤"
          ++ "</text>"
          ++ "\n                "
          ++ "</svg>"
          ++ "\n              "
    ∧ fallbackResponse.body.length = 359
    ∧ fallbackResponse.status = 200
    ∧ (fetchHandler s net late request).puts = []
    ∧ ∀ t, applyPuts (fetchHandler s net late request).puts t = t := by
  have hdest : request.destination ≠ "document" := by
    rw [himg]
    decide
  have key : fetchHandler s net late request
      = { settled := .fulfilled (some fallbackResponse), fetched := [request.url], puts := [] } := by
    simp [fetchHandler, hdest, hmiss, hfail, himg]
  rw [key]
  exact ⟨rfl, rfl, by decide, by decide, rfl, by decide, rfl, fallbackSvg_markup,
    fallbackSvg_length, rfl, rfl, fun _ => rfl⟩

theorem image_fallback_witness :
    (Request.mk "./logo.png" "image").destination = "image"
    ∧ cachesMatch "./logo.png" [(CACHE_NAME, [("./", htmlA)])] = none
    ∧ offline "./logo.png" = .rejected
    ∧ (fetchHandler [(CACHE_NAME, [("./", htmlA)])] offline [] ⟨"./logo.png", "image"⟩).settled
        = .fulfilled (some fallbackResponse) :=
  ⟨rfl, by decide, rfl,
    (image_fallback [(CACHE_NAME, [("./", htmlA)])] [] offline ⟨"./logo.png", "image"⟩
      rfl (by decide) rfl).1⟩

/-- C9. A document request whose first lookup of `./` misses and whose fetch yields
no response falls back to `caches.match('./')` on the storage as it stands then, and
settles with what that lookup finds.  The caller is left without a response exactly
when the app shell is absent at both lookups and the fetch yields no response; with
the storage unchanged in between, exactly when the app shell is absent and the fetch
yields no response. -/
theorem document_network_failure (s late : CacheStorage) (net : Network) (request : Request)
    (hdoc : request.destination = "document") :
    (cachesMatch "./" s = none → (∀ r, net request.url ≠ .resolved (some r)) →
      (fetchHandler s net late request).settled = .fulfilled (cachesMatch "./" late))
    ∧ (failsCaller (fetchHandler s net late request).settled = true ↔
        cachesMatch "./" s = none ∧ (∀ r, net request.url ≠ .resolved (some r))
          ∧ cachesMatch "./" late = none)
    ∧ (failsCaller (fetchHandler s net s request).settled = true ↔
        cachesMatch "./" s = none ∧ ∀ r, net request.url ≠ .resolved (some r)) := by
  have general : ∀ l : CacheStorage,
      (cachesMatch "./" s = none → (∀ r, net request.url ≠ .resolved (some r)) →
        (fetchHandler s net l request).settled = .fulfilled (cachesMatch "./" l))
      ∧ (failsCaller (fetchHandler s net l request).settled = true ↔
          cachesMatch "./" s = none ∧ (∀ r, net request.url ≠ .resolved (some r))
            ∧ cachesMatch "./" l = none) := by
    intro l
    cases hs : cachesMatch "./" s with
    | some R => simp [fetchHandler, hdoc, hs, failsCaller]
    | none =>
      cases hnet : net request.url with
      | rejected =>
        cases hl : cachesMatch "./" l <;> simp [fetchHandler, hdoc, hs, hnet, hl, failsCaller]
      | resolved resp =>
        cases resp with
        | none =>
          cases hl : cachesMatch "./" l <;> simp [fetchHandler, hdoc, hs, hnet, hl, failsCaller]
        | some r =>
          by_cases h200 : r.status = 200 <;> simp [fetchHandler, hdoc, hs, hnet, h200, failsCaller]
  refine ⟨(general late).1, (general late).2, ?_⟩
  rw [(general s).2]
  constructor
  · intro h
    exact ⟨h.1, h.2.1⟩
  · intro h
    exact ⟨h.1, h.2, h.1⟩

theorem document_network_failure_witness :
    (Request.mk "./report" "document").destination = "document"
    ∧ (fetchHandler [] offline [(CACHE_NAME, [("./", htmlA)])] ⟨"./report", "document"⟩).settled
        = .fulfilled (some htmlA)
    ∧ failsCaller (fetchHandler [] offline [] ⟨"./report", "document"⟩).settled = true :=
  ⟨rfl,
    (document_network_failure [] [(CACHE_NAME, [("./", htmlA)])] offline ⟨"./report", "document"⟩
      rfl).1 rfl (fun r h => by cases h),
    (document_network_failure [] [] offline ⟨"./report", "document"⟩ rfl).2.2.2
      ⟨rfl, fun r h => by cases h⟩⟩

/-- C2, as the code has it. A document request whose lookup of `./` misses and whose
fetch resolves with a response of status 200 is answered with that response, and the
one write it starts stores the response in the `CACHE_NAME` cache under the key of
the request itself: once the write has landed that key holds the response and every
other key of the cache, `./` included when the request is for another URL, holds
what it held. -/
theorem document_network_success (s late : CacheStorage) (net : Network) (request : Request)
    (r : Response) (hdoc : request.destination = "document")
    (hmiss : cachesMatch "./" s = none)
    (hnet : net request.url = .resolved (some r)) (h200 : r.status = 200) :
    (fetchHandler s net late request).settled = .fulfilled (some r)
    ∧ (fetchHandler s net late request).puts = [(request.url, r)]
    ∧ ∀ t k, cacheMatch k (cachesGet CACHE_NAME (applyPuts (fetchHandler s net late request).puts t))
        = if request.url = k then some r else cacheMatch k (cachesGet CACHE_NAME t) := by
  have key : fetchHandler s net late request
      = { settled := .fulfilled (some r), fetched := [request.url], puts := [(request.url, r)] } := by
    simp [fetchHandler, hdoc, hmiss, hnet, h200]
  rw [key]
  refine ⟨rfl, rfl, fun t k => ?_⟩
  simp only [applyPuts, List.foldl_cons, List.foldl_nil]
  rw [cachesGet_write, cacheMatch_cachePut]

theorem document_network_success_witness :
    (Request.mk "./index.html" "document").destination = "document"
    ∧ (fetchHandler [] (always htmlB) [] ⟨"./index.html", "document"⟩).puts
        = [("./index.html", htmlB)] :=
  ⟨rfl,
    (document_network_success [] [] (always htmlB) ⟨"./index.html", "document"⟩ htmlB
      rfl rfl rfl rfl).2.1⟩

/-- Counterexample to C2: the document request for `./index.html` on an empty
storage, answered by the network with status 200, starts a write under
`./index.html`; once it has landed the app-shell key `./` is still not stored. -/
theorem document_put_key_counterexample :
    cachesMatch "./" [] = none
    ∧ always htmlB "./index.html" = .resolved (some htmlB)
    ∧ htmlB.status = 200
    ∧ (fetchHandler [] (always htmlB) [] ⟨"./index.html", "document"⟩).settled
        = .fulfilled (some htmlB)
    ∧ (fetchHandler [] (always htmlB) [] ⟨"./index.html", "document"⟩).puts
        ≠ [("./", htmlB)]
    ∧ cachesMatch "./"
        (applyPuts (fetchHandler [] (always htmlB) [] ⟨"./index.html", "document"⟩).puts [])
        = none := by
  decide

/-- C6. A request that is not a document request, whose key misses and whose fetch
resolves with a response of status 200 and type `basic`, is answered with that
response and starts one write under its own key; once the write has landed on the
storage, `caches.match` of the key finds that very response, and the same request is
then answered with it from the cache, nothing being fetched. -/
theorem asset_cache_population (s late : CacheStorage) (net : Network) (request : Request)
    (r : Response) (hdest : request.destination ≠ "document")
    (hmiss : cachesMatch request.url s = none)
    (hnet : net request.url = .resolved (some r))
    (h200 : r.status = 200) (hbasic : r.type = "basic") :
    (fetchHandler s net late request).settled = .fulfilled (some r)
    ∧ (fetchHandler s net late request).fetched = [request.url]
    ∧ (fetchHandler s net late request).puts = [(request.url, r)]
    ∧ cachesMatch request.url (applyPuts (fetchHandler s net late request).puts s) = some r
    ∧ ∀ net2 late2,
        fetchHandler (applyPuts (fetchHandler s net late request).puts s) net2 late2 request
          = { settled := .fulfilled (some r), fetched := [], puts := [] } := by
  have key : fetchHandler s net late request
      = { settled := .fulfilled (some r), fetched := [request.url], puts := [(request.url, r)] } := by
    simp [fetchHandler, hdest, hmiss, hnet, h200, hbasic]
  have hit : cachesMatch request.url (applyPuts [(request.url, r)] s) = some r := by
    simp only [applyPuts, List.foldl_cons, List.foldl_nil]
    apply cachesMatch_cachesUpdate_put _ _ _ _ (mem_cachesKeys_cachesOpen _ _)
    rw [cachesMatch_cachesOpen]
    exact hmiss
  rw [key]
  refine ⟨rfl, rfl, rfl, hit, fun net2 late2 => ?_⟩
  simp [fetchHandler, hdest, hit]

theorem asset_cache_population_witness :
    (Request.mk "./app.js" "script").destination ≠ "document"
    ∧ cachesMatch "./app.js" twoGenerations = none
    ∧ cachesMatch "./app.js"
        (applyPuts (fetchHandler twoGenerations (always htmlB) [] ⟨"./app.js", "script"⟩).puts
          twoGenerations) = some htmlB :=
  ⟨by decide, by decide,
    (asset_cache_population twoGenerations [] (always htmlB) ⟨"./app.js", "script"⟩ htmlB
      (by decide) (by decide) rfl rfl rfl).2.2.2.1⟩

/-- C7, as the code has it. A cached response is found by `caches.match`, which goes
through the generations in listing order and takes the first one that holds the key:
`./` for a document request, the key of the request otherwise; that response is
served with nothing fetched.  When the names are distinct and no generation other
than `CACHE_NAME` holds the key, the lookup is the lookup in the `CACHE_NAME`
generation. -/
theorem cached_response_first_generation (s late : CacheStorage) (net : Network)
    (request : Request) :
    (∀ key, cachesMatch key s = (s.filterMap (fun g => cacheMatch key g.2)).head?)
    ∧ (request.destination = "document" → ∀ R, cachesMatch "./" s = some R →
        fetchHandler s net late request
          = { settled := .fulfilled (some R), fetched := [], puts := [] })
    ∧ (request.destination ≠ "document" → ∀ R, cachesMatch request.url s = some R →
        fetchHandler s net late request
          = { settled := .fulfilled (some R), fetched := [], puts := [] })
    ∧ (∀ key, (cachesKeys s).Nodup →
        (∀ g ∈ s, g.1 ≠ CACHE_NAME → cacheMatch key g.2 = none) →
        cachesMatch key s = cacheMatch key (cachesGet CACHE_NAME s)) := by
  refine ⟨fun key => cachesMatch_eq_head_filterMap key s, ?_, ?_, ?_⟩
  · intro hdoc R hR
    simp [fetchHandler, hdoc, hR]
  · intro hdest R hR
    simp [fetchHandler, hdest, hR]
  · intro key hnodup hothers
    exact cachesMatch_eq_current key s hothers hnodup

theorem cached_response_first_generation_witness :
    fetchHandler [(CACHE_NAME, [("./", htmlB)])] offline [] ⟨"./report", "document"⟩
        = { settled := .fulfilled (some htmlB), fetched := [], puts := [] }
    ∧ cachesMatch "./" [(CACHE_NAME, [("./", htmlB)])]
        = cacheMatch "./" (cachesGet CACHE_NAME [(CACHE_NAME, [("./", htmlB)])]) :=
  ⟨(cached_response_first_generation [(CACHE_NAME, [("./", htmlB)])] [] offline
      ⟨"./report", "document"⟩).2.1 rfl htmlB (by decide),
    (cached_response_first_generation [(CACHE_NAME, [("./", htmlB)])] [] offline
      ⟨"./report", "document"⟩).2.2.2 "./" (by decide) (by decide)⟩

/-- Counterexample to C7: with the generation `timecard-v0` listed before the current
one, the image request for `./logo.png`, held by `timecard-v0` only, is a hit served
from `timecard-v0`, and a document request is answered with the `./` entry of
`timecard-v0`, not with the one of the current generation. -/
theorem cached_response_generation_counterexample :
    cacheMatch "./logo.png" (cachesGet CACHE_NAME twoGenerations) = none
    ∧ fetchHandler twoGenerations offline [] ⟨"./logo.png", "image"⟩
        = { settled := .fulfilled (some logoOld), fetched := [], puts := [] }
    ∧ cacheMatch "./" (cachesGet CACHE_NAME twoGenerations) = some htmlB
    ∧ fetchHandler twoGenerations offline [] ⟨"./", "document"⟩
        = { settled := .fulfilled (some htmlA), fetched := [], puts := [] }
    ∧ htmlA ≠ htmlB := by
  decide

/-! ## The install handler -/

/-- C4. On a storage whose `CACHE_NAME` generation is absent or empty and can be
opened, the install handler completes for every manifest and every network with a
fixed outcome per URL, whichever entries fail.  An entry's fetch succeeds when
`cache.add` accepts what the network returns, a response with an ok status other
than 206.  The generation then holds exactly the manifest entries whose fetch
succeeded, each with the response fetched, and no other key. -/
theorem install_partial_failure (manifest : List String) (env : StorageEnv) (net : Network)
    (s : CacheStorage) (hopen : env.openFails CACHE_NAME = false)
    (hempty : cachesGet CACHE_NAME s = []) :
    (installWith manifest env net s).ok = true
    ∧ (∀ k, cacheMatch k (cachesGet CACHE_NAME (installWith manifest env net s).store)
        = if k ∈ manifest then addable (net k) else none)
    ∧ (∀ k, k ∈ (cachesGet CACHE_NAME (installWith manifest env net s).store).map Prod.fst
        ↔ k ∈ manifest ∧ (addable (net k)).isSome = true) := by
  have hstore : cachesGet CACHE_NAME (installWith manifest env net s).store
      = manifest.foldl (addOrSkip net) [] := by
    simp only [installWith, hopen, Bool.false_eq_true, if_false]
    rw [cachesGet_write, precache_eq_foldl, hempty]
  have hlookup : ∀ k, cacheMatch k (cachesGet CACHE_NAME (installWith manifest env net s).store)
      = if k ∈ manifest then addable (net k) else none := by
    intro k
    rw [hstore, cacheMatch_foldl_addOrSkip]
    by_cases hk : k ∈ manifest
    · cases addable (net k) <;> simp [hk, cacheMatch]
    · simp [hk, cacheMatch]
  refine ⟨by simp [installWith, hopen], hlookup, fun k => ?_⟩
  rw [mem_keys_iff_cacheMatch, hlookup]
  by_cases hk : k ∈ manifest <;> simp [hk]

theorem install_partial_failure_witness :
    quietEnv.openFails CACHE_NAME = false
    ∧ cachesGet CACHE_NAME [] = []
    ∧ (installWith ["./", "./app.js"] quietEnv rootOnly []).ok = true
    ∧ (∀ k, cacheMatch k (cachesGet CACHE_NAME (installWith ["./", "./app.js"] quietEnv rootOnly []).store)
        = if k ∈ ["./", "./app.js"] then addable (rootOnly k) else none) :=
  ⟨rfl, rfl,
    (install_partial_failure ["./", "./app.js"] quietEnv rootOnly [] rfl rfl).1,
    (install_partial_failure ["./", "./app.js"] quietEnv rootOnly [] rfl rfl).2.1⟩

/-- C10. With a cache that can be opened and a network on which every manifest entry
fetches successfully with a fixed response, the install handler run a second time on
the storage left by a first run leaves that storage as it is, and both runs
complete.  After either run each manifest key holds the response the network gives
for it, whatever it held before, and is stored exactly once. -/
theorem install_idempotent (manifest : List String) (env : StorageEnv) (net : Network)
    (s : CacheStorage) (hopen : env.openFails CACHE_NAME = false)
    (hall : ∀ u ∈ manifest, (addable (net u)).isSome = true) :
    (installWith manifest env net s).ok = true
    ∧ (installWith manifest env net (installWith manifest env net s).store).ok = true
    ∧ (installWith manifest env net (installWith manifest env net s).store).store
        = (installWith manifest env net s).store
    ∧ ∀ k ∈ manifest,
        cacheMatch k (cachesGet CACHE_NAME (installWith manifest env net s).store)
          = addable (net k)
        ∧ (cachesGet CACHE_NAME (installWith manifest env net s).store).countP
            (fun e => e.1 = k) = 1 := by
  have hstore : ∀ t, (installWith manifest env net t).store
      = cachesUpdate CACHE_NAME (precache manifest net) (cachesOpen CACHE_NAME t) := by
    intro t
    simp [installWith, hopen]
  have hok : ∀ t, (installWith manifest env net t).ok = true := by
    intro t
    simp [installWith, hopen]
  have hpre : ∀ c, precache manifest net (precache manifest net c) = precache manifest net c := by
    intro c
    rw [precache_eq_foldl, precache_eq_foldl, foldl_addOrSkip_idem]
  have hreopen : cachesOpen CACHE_NAME (installWith manifest env net s).store
      = (installWith manifest env net s).store := by
    have hmem : CACHE_NAME ∈ cachesKeys (installWith manifest env net s).store := by
      rw [hstore, cachesKeys_cachesUpdate]
      exact mem_cachesKeys_cachesOpen _ _
    unfold cachesOpen
    rw [if_pos hmem]
  have hget : cachesGet CACHE_NAME (installWith manifest env net s).store
      = manifest.foldl (addOrSkip net) (cachesGet CACHE_NAME s) := by
    rw [hstore, cachesGet_write, precache_eq_foldl]
  refine ⟨hok s, hok _, ?_, fun k hk => ⟨?_, ?_⟩⟩
  · rw [hstore (installWith manifest env net s).store, hreopen, hstore s]
    exact cachesUpdate_idem CACHE_NAME _ hpre _
  · rw [hget, cacheMatch_foldl_addOrSkip, if_pos hk]
    cases ha : addable (net k) with
    | none =>
      have := hall k hk
      simp [ha] at this
    | some r => rfl
  · rw [hget, countP_key_foldl_addOrSkip, if_pos ⟨hk, hall k hk⟩]

theorem install_idempotent_witness :
    quietEnv.openFails CACHE_NAME = false
    ∧ (∀ u ∈ urlsToCache, (addable (always htmlA u)).isSome = true)
    ∧ (installWith urlsToCache quietEnv (always htmlA)
        (installWith urlsToCache quietEnv (always htmlA) twoGenerations).store).store
        = (installWith urlsToCache quietEnv (always htmlA) twoGenerations).store :=
  ⟨rfl, fun _ _ => rfl,
    (install_idempotent urlsToCache quietEnv (always htmlA) twoGenerations rfl
      (fun _ _ => rfl)).2.2.1⟩

/-! ## The activate handler -/

/-- C3, as the code has it. When the activate handler completes, the storage is left
with the generations named `CACHE_NAME` and no other: every tag listed afterwards is
`CACHE_NAME`.  The listing is exactly the one tag `CACHE_NAME` when that tag existed
before (names being distinct), and it is empty when it did not: the handler creates
no generation. -/
theorem activate_keeps_current_only (env : StorageEnv) (s : CacheStorage)
    (hok : (activateHandler env s).ok = true) :
    (activateHandler env s).store = s.filter (fun g => g.1 = CACHE_NAME)
    ∧ cachesKeys (activateHandler env s).store
        = (cachesKeys s).filter (fun t => t = CACHE_NAME)
    ∧ (∀ t ∈ cachesKeys (activateHandler env s).store, t = CACHE_NAME)
    ∧ ((cachesKeys s).Nodup → CACHE_NAME ∈ cachesKeys s →
        cachesKeys (activateHandler env s).store = [CACHE_NAME])
    ∧ (CACHE_NAME ∉ cachesKeys s → cachesKeys (activateHandler env s).store = []) := by
  have hkeys : env.keysFails = false := by
    cases h : env.keysFails with
    | false => rfl
    | true => simp [activateHandler, h] at hok
  have hdel : ∀ n ∈ (cachesKeys s).filter (fun cacheName => cacheName ≠ CACHE_NAME),
      env.deleteFails n = false := by
    intro n hn
    cases h : env.deleteFails n with
    | false => rfl
    | true =>
      have hany : ((cachesKeys s).filter (fun cacheName => cacheName ≠ CACHE_NAME)).any
          env.deleteFails = true := List.any_eq_true.mpr ⟨n, hn, h⟩
      simp only [activateHandler, hkeys, Bool.false_eq_true, if_false, hany, if_true] at hok
  have hstore : (activateHandler env s).store = s.filter (fun g => g.1 = CACHE_NAME) := by
    have h1 : (activateHandler env s).store
        = ((cachesKeys s).filter (fun cacheName => cacheName ≠ CACHE_NAME)).foldl
            (fun acc cacheName =>
              if env.deleteFails cacheName then acc else cachesDelete cacheName acc) s := by
      simp only [activateHandler, hkeys, Bool.false_eq_true, if_false]
      split <;> rfl
    rw [h1, foldl_delete_eq_filter env _ hdel s]
    apply List.filter_congr
    intro g hg
    have hmem : g.1 ∈ cachesKeys s := List.mem_map_of_mem Prod.fst hg
    by_cases hn : g.1 = CACHE_NAME
    · simp [hn]
    · simp [hn, hmem]
  have hlist : cachesKeys (activateHandler env s).store
      = (cachesKeys s).filter (fun t => t = CACHE_NAME) := by
    rw [hstore]
    simp only [cachesKeys, List.filter_map]
    rfl
  refine ⟨hstore, hlist, ?_, ?_, ?_⟩
  · intro t ht
    rw [hlist] at ht
    simpa using (List.mem_filter.mp ht).2
  · intro hnodup hmem
    rw [hlist]
    exact filter_eq_singleton_of_nodup CACHE_NAME _ hmem hnodup
  · intro hnot
    rw [hlist, List.filter_eq_nil_iff]
    intro t ht
    have : ¬ t = CACHE_NAME := fun e => hnot (e ▸ ht)
    simpa using this

theorem activate_keeps_current_only_witness :
    (activateHandler quietEnv twoGenerations).ok = true
    ∧ cachesKeys (activateHandler quietEnv twoGenerations).store = [CACHE_NAME] :=
  ⟨by decide,
    (activate_keeps_current_only quietEnv twoGenerations (by decide)).2.2.2.1
      (by decide) (by decide)⟩

/-- Counterexample to C3: on a storage whose only generation is `timecard-v0` the
activate handler completes and leaves no generation at all; the listing is then
empty and the current tag is not in it. -/
theorem activate_without_current_counterexample :
    activateHandler quietEnv [("timecard-v0", [("./", htmlA)])] = { store := [], ok := true }
    ∧ cachesKeys (activateHandler quietEnv [("timecard-v0", [("./", htmlA)])]).store
        ≠ [CACHE_NAME]
    ∧ CACHE_NAME ∉ cachesKeys (activateHandler quietEnv [("timecard-v0", [("./", htmlA)])]).store := by
  decide

end ServiceWorker
